import Mathlib

/-!
Verification of the PDF-to-Markdown/DOCX converter (`PDF_to_MD.py`).

Python strings are modelled as `List Char` (`PyStr`), bytes as `List Nat`
with values below 256.  The three pure core functions
(`pdf_bytes_to_data_url`, `response_to_markdown`, `response_to_docx_bytes`)
are embedded directly from the source; the script-level conversion logic
(the block guarded by `if run:`) is embedded as `conversionFlow`.
-/

set_option autoImplicit false

abbrev PyStr := List Char

/-- Convenience: a Lean string literal viewed as a Python string (list of chars). -/
def strLit (s : String) : PyStr := s.toList

/-- Characters stripped by Python `str.strip()` (ASCII whitespace). -/
def isPyWS (c : Char) : Bool :=
  c = ' ' || c = '\t' || c = '\n' || c = '\r' || c = '\x0b' || c = '\x0c'

/-- Python `str.lstrip()`. -/
def pyLStrip (s : PyStr) : PyStr := s.dropWhile isPyWS

/-- Python `str.rstrip()`. -/
def pyRStrip (s : PyStr) : PyStr := (s.reverse.dropWhile isPyWS).reverse

/-- Python `str.strip()`. -/
def pyStrip (s : PyStr) : PyStr := pyRStrip (pyLStrip s)

/-- Python `sep.join(parts)`. -/
def pyJoin (sep : PyStr) : List PyStr → PyStr
  | [] => []
  | [x] => x
  | x :: y :: xs => x ++ sep ++ pyJoin sep (y :: xs)

/-- Split a string at every newline character (used to talk about the lines
of the generated Markdown). -/
def splitOnNl : PyStr → List PyStr
  | [] => [[]]
  | c :: rest =>
    if c = '\n' then [] :: splitOnNl rest
    else
      match splitOnNl rest with
      | [] => [[c]]
      | l :: ls => (c :: l) :: ls

/-- Line-break characters recognised by Python `str.splitlines()`. -/
def isLineBreak (c : Char) : Bool :=
  c = '\n' || c = '\r' || c = '\x0b' || c = '\x0c' ||
  c = '\x1c' || c = '\x1d' || c = '\x1e' ||
  c.toNat = 133 || c.toNat = 8232 || c.toNat = 8233

/-- Python `str.splitlines()`. -/
def pySplitlines : PyStr → List PyStr
  | [] => []
  | '\r' :: '\n' :: rest => [] :: pySplitlines rest
  | c :: rest =>
    if isLineBreak c then [] :: pySplitlines rest
    else
      match pySplitlines rest with
      | [] => [[c]]
      | l :: ls => (c :: l) :: ls

/-- The decimal digit characters used when formatting page numbers. -/
def digitChar : Nat → Char
  | 0 => '0' | 1 => '1' | 2 => '2' | 3 => '3' | 4 => '4'
  | 5 => '5' | 6 => '6' | 7 => '7' | 8 => '8' | _ => '9'

/-- Fuel-driven decimal formatting (structural, so that it reduces by `rfl`). -/
def natToStrF : Nat → Nat → PyStr
  | 0, _ => []
  | f + 1, n =>
    if n < 10 then [digitChar n]
    else natToStrF f (n / 10) ++ [digitChar (n % 10)]

/-- Python `str(n)` for a natural number. -/
def natToStr (n : Nat) : PyStr := natToStrF (n + 1) n

/-- Decimal digit test. -/
def isDigitCh (c : Char) : Bool := 48 ≤ c.toNat && c.toNat ≤ 57

/-- Value of a decimal digit string. -/
def digitsVal (ds : PyStr) : Nat := ds.foldl (fun a c => a * 10 + (c.toNat - 48)) 0

/-- Boolean "does `p` begin the string `l`" (our own executable prefix test). -/
def beginsWith : PyStr → PyStr → Bool
  | [], _ => true
  | _ :: _, [] => false
  | a :: xs, b :: ys => a = b && beginsWith xs ys

/- ### Data model: one page of the OCR response -/

/-- One extracted image of a page (`im.image_base64` may be absent). -/
structure ImageResult where
  image_base64 : Option PyStr
deriving DecidableEq

/-- One page of the OCR response: `index`, optional `markdown` text and the
image list (`getattr(p, "images", []) or []` collapses an absent/`None`
field to the empty list, which the embedding bakes in). -/
structure PageResult where
  index : Nat
  markdown : Option PyStr
  images : List ImageResult
deriving DecidableEq

/-- Python truthiness of an optional string (`if b64:`): present and nonempty. -/
def truthyStr : Option PyStr → Bool
  | some s => !s.isEmpty
  | none => false

/- ### Markdown renderer (`response_to_markdown`) -/

/-- The page-header fragment `f"\n\n---\n\n### Page {p.index + 1}\n\n"`. -/
def pageHeader (i : Nat) : PyStr :=
  strLit "\n\n---\n\n### Page " ++ natToStr (i + 1) ++ strLit "\n\n"

/-- The image-embed fragment
`f"\n![page {p.index+1} image {i}](data:image/png;base64,{b64})\n"`. -/
def imageEmbed (pidx inum : Nat) (b64 : PyStr) : PyStr :=
  strLit "\n![page " ++ natToStr (pidx + 1) ++ strLit " image " ++ natToStr inum ++
    strLit "](data:image/png;base64," ++ b64 ++ strLit ")\n"

/-- The `"\n\n#### Extracted images\n"` sub-heading fragment. -/
def imgHeadingStr : PyStr := strLit "\n\n#### Extracted images\n"

/-- The loop `for i, im in enumerate(images, start=1)`: one embed per image
that carries a truthy `image_base64`; the counter advances on every image. -/
def imagesParts (pidx : Nat) : List ImageResult → Nat → List PyStr
  | [], _ => []
  | im :: rest, i =>
    match im.image_base64 with
    | some b64 =>
      if b64.isEmpty then imagesParts pidx rest (i + 1)
      else imageEmbed pidx i b64 :: imagesParts pidx rest (i + 1)
    | none => imagesParts pidx rest (i + 1)

/-- The page-text fragment: appended only when `p.markdown` is truthy. -/
def mdTextPart (p : PageResult) : List PyStr :=
  match p.markdown with
  | some t => if t.isEmpty then [] else [t]
  | none => []

/-- All `md_parts` fragments contributed by one page. -/
def pageParts (p : PageResult) : List PyStr :=
  pageHeader p.index ::
    mdTextPart p ++
      (if p.images.isEmpty then []
       else imgHeadingStr :: imagesParts p.index p.images 1)

/-- `response_to_markdown`: join all fragments with `"\n"` and strip. -/
def response_to_markdown (pages : List PageResult) : PyStr :=
  pyStrip (pyJoin ['\n'] (List.flatten (pages.map pageParts)))

/-- The constant heading stem `"### Page "`. -/
def hdr9 : PyStr := strLit "### Page "

/-- Parse a line of the Markdown output as a page heading `### Page k`,
returning `k`. -/
def parseHeading (l : PyStr) : Option Nat :=
  if beginsWith hdr9 l && !(l.drop 9).isEmpty && (l.drop 9).all isDigitCh then
    some (digitsVal (l.drop 9))
  else none

/-- Heading test on a line, insensitive to trailing whitespace. -/
def lineHeading (l : PyStr) : Option Nat := parseHeading (pyRStrip l)

/-- The page numbers of all `### Page k` heading occurrences in a rendered
Markdown string, in order of appearance. -/
def headingOccurrences (s : PyStr) : List Nat :=
  (splitOnNl s).filterMap lineHeading

/- ### Request encoder (`pdf_bytes_to_data_url`) -/

/-- The standard base64 alphabet used by `base64.b64encode`. -/
def b64Alphabet : PyStr :=
  strLit "ABCDEFGHIJKLMNOPQRSTUVWXYZabcdefghijklmnopqrstuvwxyz0123456789+/"

/-- Character for a 6-bit group. -/
def b64Char (n : Nat) : Char := b64Alphabet.getD n 'A'

/-- Numeric value of a base64 character (verification-side inverse table). -/
def b64CharVal (c : Char) : Nat :=
  if 65 ≤ c.toNat && c.toNat ≤ 90 then c.toNat - 65
  else if 97 ≤ c.toNat && c.toNat ≤ 122 then c.toNat - 97 + 26
  else if 48 ≤ c.toNat && c.toNat ≤ 57 then c.toNat - 48 + 52
  else if c = '+' then 62
  else if c = '/' then 63
  else 0

/-- `base64.b64encode` on a byte string (bytes are `Nat`s below 256). -/
def b64encode : List Nat → PyStr
  | a :: b :: c :: rest =>
    b64Char (a / 4) :: b64Char (a % 4 * 16 + b / 16) ::
      b64Char (b % 16 * 4 + c / 64) :: b64Char (c % 64) :: b64encode rest
  | [a, b] => [b64Char (a / 4), b64Char (a % 4 * 16 + b / 16), b64Char (b % 16 * 4), '=']
  | [a] => [b64Char (a / 4), b64Char (a % 4 * 16), '=', '=']
  | [] => []

/-- Standard base64 decoding (verification-side, used to state the
round-trip property of the encoder). -/
def b64decode : List Char → List Nat
  | a :: b :: c :: d :: rest =>
    if c = '=' then [b64CharVal a * 4 + b64CharVal b / 16]
    else if d = '=' then
      [b64CharVal a * 4 + b64CharVal b / 16,
       b64CharVal b % 16 * 16 + b64CharVal c / 4]
    else
      (b64CharVal a * 4 + b64CharVal b / 16) ::
        (b64CharVal b % 16 * 16 + b64CharVal c / 4) ::
          (b64CharVal c % 4 * 64 + b64CharVal d) :: b64decode rest
  | _ => []

/-- `pdf_bytes_to_data_url`: base64-encode the PDF bytes into a data URI. -/
def pdf_bytes_to_data_url (pdf_bytes : List Nat) : PyStr :=
  strLit "data:application/pdf;base64," ++ b64encode pdf_bytes

/- ### Rich-document renderer (`response_to_docx_bytes`) -/

/-- Exceptions that can be raised by the embedded code. -/
inductive PyException where
  /-- `raise RuntimeError(msg)`. -/
  | runtimeError (msg : PyStr)
  /-- `NameError`: an unbound name was evaluated. -/
  | nameError (name : PyStr)
  /-- An exception raised inside the `python-docx` library. -/
  | libError
deriving DecidableEq

/-- Observable behaviour of `python-docx`'s `add_picture` on given image
bytes: whether the call succeeds with the explicit `width=Inches(6)` and
whether it succeeds with no explicit sizing.  The library is an external
collaborator, so this is a parameter of the embedding. -/
structure PictureLib where
  sizedOk : List Nat → Bool
  unsizedOk : List Nat → Bool

/-- One element appended to the DOCX `Document`. -/
inductive DocxItem where
  | heading (text : PyStr) (level : Nat)
  | paragraph (text : PyStr)
  /-- An embedded picture; `sized` records whether `width=Inches(6)` was used. -/
  | picture (data : List Nat) (sized : Bool)
  | pageBreak
deriving DecidableEq

/-- Recogniser for `DocxItem.pageBreak`. -/
def isPageBreak : DocxItem → Bool
  | .pageBreak => true
  | _ => false

/-- The message of the `RuntimeError` raised when `python-docx` is missing. -/
def missingDepMsg : PyStr := strLit "python-docx is not installed. Run: pip install python-docx"

/-- The image loop of `response_to_docx_bytes`: for every truthy
`image_base64`, try `add_picture(bio, width=Inches(6))`; on any exception
retry once as `add_picture(bio)`; a failure of the retry propagates. -/
def docxImagesItems (lib : PictureLib) : List ImageResult → Except PyException (List DocxItem)
  | [] => .ok []
  | im :: rest =>
    match im.image_base64 with
    | some b64 =>
      if b64.isEmpty then docxImagesItems lib rest
      else
        let data := b64decode b64
        if lib.sizedOk data then
          Except.map (fun its => DocxItem.picture data true :: its) (docxImagesItems lib rest)
        else if lib.unsizedOk data then
          Except.map (fun its => DocxItem.picture data false :: its) (docxImagesItems lib rest)
        else .error .libError
    | none => docxImagesItems lib rest

/-- The paragraphs of one page: `p.markdown.splitlines()` when truthy. -/
def docxParagraphs (p : PageResult) : List DocxItem :=
  match p.markdown with
  | some t => if t.isEmpty then [] else (pySplitlines t).map DocxItem.paragraph
  | none => []

/-- All items contributed by one page: heading, paragraphs, pictures and the
closing page break. -/
def docxPageItems (lib : PictureLib) (p : PageResult) : Except PyException (List DocxItem) :=
  Except.map
    (fun imgs =>
      DocxItem.heading (strLit "Page " ++ natToStr (p.index + 1)) 2 ::
        docxParagraphs p ++ imgs ++ [DocxItem.pageBreak])
    (docxImagesItems lib p.images)

/-- The page loop of `response_to_docx_bytes`. -/
def docxAllPages (lib : PictureLib) : List PageResult → Except PyException (List DocxItem)
  | [] => .ok []
  | p :: rest => do
    let its ← docxPageItems lib p
    let more ← docxAllPages lib rest
    return its ++ more

/-- `response_to_docx_bytes`: raises `RuntimeError` when `python-docx` is
not importable, otherwise renders every page. -/
def response_to_docx_bytes (hasPythonDocx : Bool) (lib : PictureLib)
    (pages : List PageResult) : Except PyException (List DocxItem) :=
  if hasPythonDocx then docxAllPages lib pages
  else .error (.runtimeError missingDepMsg)

/- ### Script-level conversion logic (the `if run:` block) -/

/-- The provider exception captured by `except Exception as e`. -/
structure OcrFailure where
  detail : PyStr
deriving DecidableEq

/-- Inputs of one button-triggered run. -/
structure FlowInput where
  uploaded : Option (List Nat)
  apiKey : Option PyStr
  wantDocx : Bool
  hasPythonDocx : Bool
  ocrOutcome : Except OcrFailure (List PageResult)

/-- Observable outcome of one run: the `st.error` messages shown in order,
the `st.exception` detail, the session-state artifacts, and any exception
that escapes the script. -/
structure FlowOutcome where
  errors : List PyStr
  exceptionShown : Option OcrFailure
  sessionMd : Option PyStr
  sessionDocx : Option (List DocxItem)
  uncaught : Option PyException
deriving DecidableEq

/-- `st.error` message for a missing upload. -/
def uploadErrMsg : PyStr := strLit "Please upload a PDF first."

/-- `st.error` message for a missing API key. -/
def keyErrMsg : PyStr := strLit "No API key found. Add it to Streamlit Secrets or your environment."

/-- `st.error` message shown when the OCR call raises. -/
def ocrErrMsg : PyStr := strLit "An unexpected error occurred while calling Mistral OCR."

/-- `st.error` message shown when DOCX is requested without `python-docx`. -/
def docxMissingMsg : PyStr := strLit "`python-docx` is not installed. Run: `pip install python-docx`"

/-- Python truthiness of the API key (`if not api_key`). -/
def apiKeyTruthy (k : Option PyStr) : Bool := truthyStr k

/-- The conversion logic that runs when the button is pressed.  On an OCR
failure the code shows the error and the attached exception, but then falls
through to `response_to_markdown(resp)` with `resp` unbound, so the run
aborts with an uncaught `NameError`. -/
def conversionFlow (lib : PictureLib) (inp : FlowInput) : FlowOutcome :=
  let errs :=
    (if inp.uploaded.isNone then [uploadErrMsg] else []) ++
      (if !apiKeyTruthy inp.apiKey then [keyErrMsg] else [])
  if inp.uploaded.isNone || !apiKeyTruthy inp.apiKey then
    { errors := errs, exceptionShown := none, sessionMd := none,
      sessionDocx := none, uncaught := none }
  else
    match inp.ocrOutcome with
    | .error e =>
      { errors := errs ++ [ocrErrMsg], exceptionShown := some e, sessionMd := none,
        sessionDocx := none, uncaught := some (.nameError (strLit "resp")) }
    | .ok resp =>
      let md := response_to_markdown resp
      if inp.wantDocx then
        if !inp.hasPythonDocx then
          { errors := errs ++ [docxMissingMsg], exceptionShown := none,
            sessionMd := some md, sessionDocx := none, uncaught := none }
        else
          match docxAllPages lib resp with
          | .ok items =>
            { errors := errs, exceptionShown := none, sessionMd := some md,
              sessionDocx := some items, uncaught := none }
          | .error e =>
            { errors := errs, exceptionShown := none, sessionMd := some md,
              sessionDocx := none, uncaught := some e }
      else
        { errors := errs, exceptionShown := none, sessionMd := some md,
          sessionDocx := none, uncaught := none }

/- ## Lemmas and theorems -/

/- ### Base64 (claim C8) -/

theorem b64CharVal_b64Char : ∀ n, n < 64 → b64CharVal (b64Char n) = n := by decide

theorem b64Char_ne_pad : ∀ n, n < 64 → ¬ b64Char n = '=' := by decide

theorem b64decode_pad2 (w x : Char) :
    b64decode [w, x, '=', '='] = [b64CharVal w * 4 + b64CharVal x / 16] := rfl

theorem b64decode_pad1 (w x y : Char) (hy : y ≠ '=') :
    b64decode [w, x, y, '='] =
      [b64CharVal w * 4 + b64CharVal x / 16, b64CharVal x % 16 * 16 + b64CharVal y / 4] := by
  simp only [b64decode]
  rw [if_neg hy, if_true]

theorem b64decode_quad (w x y z : Char) (r : List Char) (hy : y ≠ '=') (hz : z ≠ '=') :
    b64decode (w :: x :: y :: z :: r) =
      (b64CharVal w * 4 + b64CharVal x / 16) ::
        (b64CharVal x % 16 * 16 + b64CharVal y / 4) ::
          (b64CharVal y % 4 * 64 + b64CharVal z) :: b64decode r := by
  simp only [b64decode]
  rw [if_neg hy, if_neg hz]

theorem b64_roundtrip : ∀ bs : List Nat, (∀ b ∈ bs, b < 256) →
    b64decode (b64encode bs) = bs
  | [], _ => rfl
  | [a], h => by
    have ha : a < 256 := h a (by simp)
    show b64decode [b64Char (a / 4), b64Char (a % 4 * 16), '=', '='] = [a]
    rw [b64decode_pad2, b64CharVal_b64Char _ (by omega), b64CharVal_b64Char _ (by omega)]
    simp only [List.cons.injEq, and_true]
    omega
  | [a, b], h => by
    have ha : a < 256 := h a (by simp)
    have hb : b < 256 := h b (by simp)
    show b64decode [b64Char (a / 4), b64Char (a % 4 * 16 + b / 16), b64Char (b % 16 * 4), '='] = [a, b]
    rw [b64decode_pad1 _ _ _ (b64Char_ne_pad _ (by omega))]
    rw [b64CharVal_b64Char _ (by omega), b64CharVal_b64Char _ (by omega),
      b64CharVal_b64Char _ (by omega)]
    simp only [List.cons.injEq, and_true]
    exact ⟨by omega, by omega⟩
  | a :: b :: c :: rest, h => by
    have ha : a < 256 := h a (by simp)
    have hb : b < 256 := h b (by simp)
    have hc : c < 256 := h c (by simp)
    have ih := b64_roundtrip rest (fun x hx => h x (by simp [hx]))
    show b64decode (b64Char (a / 4) :: b64Char (a % 4 * 16 + b / 16) ::
      b64Char (b % 16 * 4 + c / 64) :: b64Char (c % 64) :: b64encode rest) = a :: b :: c :: rest
    rw [b64decode_quad _ _ _ _ _ (b64Char_ne_pad _ (by omega)) (b64Char_ne_pad _ (by omega))]
    rw [b64CharVal_b64Char _ (by omega), b64CharVal_b64Char _ (by omega),
      b64CharVal_b64Char _ (by omega), b64CharVal_b64Char _ (by omega)]
    rw [ih]
    simp only [List.cons.injEq, and_true]
    exact ⟨by omega, by omega, by omega⟩

/-- Claim C8: for every byte string, the request encoder returns exactly the
prefix `data:application/pdf;base64,` followed by the base64 encoding of the
bytes, and base64-decoding the payload after the 28-character prefix
recovers the bytes exactly. -/
theorem data_url_shape_and_roundtrip (bs : List Nat) (h : ∀ b ∈ bs, b < 256) :
    pdf_bytes_to_data_url bs = strLit "data:application/pdf;base64," ++ b64encode bs ∧
      b64decode ((pdf_bytes_to_data_url bs).drop 28) = bs := by
  refine ⟨rfl, ?_⟩
  show b64decode ((strLit "data:application/pdf;base64," ++ b64encode bs).drop 28) = bs
  have h28 : (strLit "data:application/pdf;base64,").length = 28 := rfl
  rw [show (28 : Nat) = (strLit "data:application/pdf;base64,").length from rfl,
    List.drop_left]
  exact b64_roundtrip bs h

/-- Witness for C8 at the concrete byte string `[77, 97]` (`"Ma"`). -/
theorem data_url_shape_and_roundtrip_witness :
    pdf_bytes_to_data_url [77, 97] = strLit "data:application/pdf;base64," ++ b64encode [77, 97] ∧
      b64decode ((pdf_bytes_to_data_url [77, 97]).drop 28) = [77, 97] :=
  data_url_shape_and_roundtrip [77, 97] (by decide)

/- ### Shared lemmas about the renderers -/

theorem imagesParts_untruthy (pidx : Nat) :
    ∀ (ims : List ImageResult) (k : Nat),
      (∀ im ∈ ims, truthyStr im.image_base64 = false) → imagesParts pidx ims k = []
  | [], _, _ => rfl
  | im :: rest, k, h => by
    have him := h im (by simp)
    have hrest : ∀ x ∈ rest, truthyStr x.image_base64 = false :=
      fun x hx => h x (by simp [hx])
    cases hb : im.image_base64 with
    | none => simp only [imagesParts, hb]; exact imagesParts_untruthy pidx rest (k + 1) hrest
    | some b64 =>
      rw [hb] at him
      simp only [truthyStr, Bool.not_eq_false'] at him
      simp only [imagesParts, hb, him, if_true]
      exact imagesParts_untruthy pidx rest (k + 1) hrest

theorem docxImagesItems_untruthy (lib : PictureLib) :
    ∀ ims : List ImageResult,
      (∀ im ∈ ims, truthyStr im.image_base64 = false) → docxImagesItems lib ims = .ok []
  | [], _ => rfl
  | im :: rest, h => by
    have him := h im (by simp)
    have hrest : ∀ x ∈ rest, truthyStr x.image_base64 = false :=
      fun x hx => h x (by simp [hx])
    cases hb : im.image_base64 with
    | none => simp only [docxImagesItems, hb]; exact docxImagesItems_untruthy lib rest hrest
    | some b64 =>
      rw [hb] at him
      simp only [truthyStr, Bool.not_eq_false'] at him
      simp only [docxImagesItems, hb, him, if_true]
      exact docxImagesItems_untruthy lib rest hrest

theorem docxImagesItems_only_pics (lib : PictureLib) :
    ∀ (ims : List ImageResult) (imgs : List DocxItem),
      docxImagesItems lib ims = .ok imgs → List.countP isPageBreak imgs = 0
  | [], imgs, h => by
    simp only [docxImagesItems] at h
    cases h
    rfl
  | im :: rest, imgs, h => by
    cases hb : im.image_base64 with
    | none =>
      simp only [docxImagesItems, hb] at h
      exact docxImagesItems_only_pics lib rest imgs h
    | some b64 =>
      simp only [docxImagesItems, hb] at h
      by_cases he : b64.isEmpty
      · rw [if_pos he] at h
        exact docxImagesItems_only_pics lib rest imgs h
      · rw [if_neg he] at h
        by_cases hs : lib.sizedOk (b64decode b64) = true
        · rw [if_pos hs] at h
          cases hr : docxImagesItems lib rest with
          | error e => rw [hr] at h; exact absurd h (by simp [Except.map])
          | ok l =>
            rw [hr] at h
            simp only [Except.map] at h
            cases h
            have hl := docxImagesItems_only_pics lib rest l hr
            simp [List.countP_cons, isPageBreak, hl]
        · rw [if_neg hs] at h
          by_cases hu : lib.unsizedOk (b64decode b64) = true
          · rw [if_pos hu] at h
            cases hr : docxImagesItems lib rest with
            | error e => rw [hr] at h; exact absurd h (by simp [Except.map])
            | ok l =>
              rw [hr] at h
              simp only [Except.map] at h
              cases h
              have hl := docxImagesItems_only_pics lib rest l hr
              simp [List.countP_cons, isPageBreak, hl]
          · rw [if_neg hu] at h
            exact absurd h (by simp)

theorem docxParagraphs_no_break (p : PageResult) :
    List.countP isPageBreak (docxParagraphs p) = 0 := by
  rcases p with ⟨i, m, imgs⟩
  cases m with
  | none => rfl
  | some t =>
    simp only [docxParagraphs]
    by_cases he : t.isEmpty
    · rw [if_pos he]
      rfl
    · rw [if_neg he]
      rw [List.countP_eq_zero]
      intro a ha
      rw [List.mem_map] at ha
      obtain ⟨l, -, rfl⟩ := ha
      simp [isPageBreak]

theorem docxPageItems_break (lib : PictureLib) (p : PageResult) (its : List DocxItem)
    (h : docxPageItems lib p = .ok its) :
    List.countP isPageBreak its = 1 ∧ its.getLast? = some DocxItem.pageBreak := by
  unfold docxPageItems at h
  cases hr : docxImagesItems lib p.images with
  | error e => rw [hr] at h; exact absurd h (by simp [Except.map])
  | ok imgs =>
    rw [hr] at h
    simp only [Except.map] at h
    cases h
    have h1 := docxParagraphs_no_break p
    have h2 := docxImagesItems_only_pics lib p.images imgs hr
    constructor
    · simp [List.countP_cons, List.countP_append, isPageBreak, h1, h2]
    · have hsh : DocxItem.heading (strLit "Page " ++ natToStr (p.index + 1)) 2 ::
          docxParagraphs p ++ imgs ++ [DocxItem.pageBreak] =
          (DocxItem.heading (strLit "Page " ++ natToStr (p.index + 1)) 2 ::
            (docxParagraphs p ++ imgs)) ++ [DocxItem.pageBreak] := by
        simp
      rw [hsh, List.getLast?_concat]

theorem docxAllPages_breaks (lib : PictureLib) :
    ∀ (pages : List PageResult) (items : List DocxItem),
      docxAllPages lib pages = .ok items →
        List.countP isPageBreak items = pages.length ∧
          (pages ≠ [] → items.getLast? = some DocxItem.pageBreak)
  | [], items, h => by
    simp only [docxAllPages] at h
    cases h
    exact ⟨rfl, fun hc => absurd rfl hc⟩
  | p :: rest, items, h => by
    simp only [docxAllPages, bind, Except.bind] at h
    cases h1 : docxPageItems lib p with
    | error e => rw [h1] at h; exact absurd h (by simp)
    | ok its1 =>
      rw [h1] at h
      cases h2 : docxAllPages lib rest with
      | error e => rw [h2] at h; exact absurd h (by simp)
      | ok more =>
        rw [h2] at h
        simp only [pure, Except.pure] at h
        cases h
        obtain ⟨hc1, hl1⟩ := docxPageItems_break lib p its1 h1
        obtain ⟨hc2, hl2⟩ := docxAllPages_breaks lib rest more h2
        constructor
        · rw [List.countP_append, hc1, hc2]
          simp [Nat.add_comm]
        · intro _
          cases rest with
          | nil =>
            have hm : more = [] := by
              simp only [docxAllPages] at h2
              cases h2
              rfl
            subst hm
            rw [List.append_nil]
            exact hl1
          | cons r rs =>
            have hm : more ≠ [] := by
              intro hmn
              rw [hmn] at hl2
              have := hl2 (by simp)
              simp at this
            rw [List.getLast?_append_of_ne_nil _ hm]
            exact hl2 (by simp)

/- ### Claim theorems: renderers and flow -/

/-- Claim C5: for every image entry whose encoded data is absent or empty,
neither the Markdown renderer nor the rich-document renderer emits any
image embed for it: a list of such images contributes no fragments and no
items, and no error is raised by either renderer. -/
theorem skipped_images_silent (pidx k : Nat) (lib : PictureLib) (ims : List ImageResult)
    (h : ∀ im ∈ ims, truthyStr im.image_base64 = false) :
    imagesParts pidx ims k = [] ∧ docxImagesItems lib ims = .ok [] :=
  ⟨imagesParts_untruthy pidx ims k h, docxImagesItems_untruthy lib ims h⟩

/-- Witness for C5: one absent and one empty image entry. -/
theorem skipped_images_silent_witness :
    (∀ im ∈ [ImageResult.mk none, ImageResult.mk (some [])], truthyStr im.image_base64 = false) ∧
      imagesParts 0 [ImageResult.mk none, ImageResult.mk (some [])] 1 = [] ∧
        docxImagesItems ⟨fun _ => true, fun _ => true⟩
          [ImageResult.mk none, ImageResult.mk (some [])] = .ok [] :=
  ⟨by decide, skipped_images_silent 0 1 ⟨fun _ => true, fun _ => true⟩ _ (by decide)⟩

/-- Claim C10: a page whose image list is non-empty but in which every image
lacks encoded data still gets the `#### Extracted images` sub-heading in
the Markdown fragments, with no image embed after it. -/
theorem img_heading_without_embeds (p : PageResult) (hne : p.images ≠ [])
    (h : ∀ im ∈ p.images, truthyStr im.image_base64 = false) :
    pageParts p = pageHeader p.index :: mdTextPart p ++ [imgHeadingStr] ∧
      imagesParts p.index p.images 1 = [] := by
  have hip := imagesParts_untruthy p.index p.images 1 h
  refine ⟨?_, hip⟩
  have hemp : p.images.isEmpty = false := by
    cases hi : p.images with
    | nil => exact absurd hi hne
    | cons a t => rfl
  rw [pageParts, hemp, hip]
  simp

/-- Witness for C10: one page with a single data-less image. -/
theorem img_heading_without_embeds_witness :
    ((PageResult.mk 0 none [ImageResult.mk none]).images ≠ [] ∧
        ∀ im ∈ (PageResult.mk 0 none [ImageResult.mk none]).images,
          truthyStr im.image_base64 = false) ∧
      pageParts (PageResult.mk 0 none [ImageResult.mk none]) =
        pageHeader 0 :: mdTextPart (PageResult.mk 0 none [ImageResult.mk none]) ++ [imgHeadingStr] ∧
        imagesParts 0 [ImageResult.mk none] 1 = [] :=
  ⟨⟨by decide, by decide⟩,
    img_heading_without_embeds (PageResult.mk 0 none [ImageResult.mk none]) (by decide) (by decide)⟩

/-- Claim C7: for a page whose text is present, the rich-document renderer
splits the text at line boundaries and emits each line as one paragraph; in
particular `"Hello\nWorld"` yields exactly the two paragraphs `"Hello"`
and `"World"`. -/
theorem text_lines_paragraphs (lib : PictureLib) (i : Nat) (c : Char) (cs : PyStr) :
    docxPageItems lib ⟨i, some (c :: cs), []⟩ =
        .ok (DocxItem.heading (strLit "Page " ++ natToStr (i + 1)) 2 ::
          (pySplitlines (c :: cs)).map DocxItem.paragraph ++ [DocxItem.pageBreak]) ∧
      pySplitlines (strLit "Hello\nWorld") = [strLit "Hello", strLit "World"] := by
  constructor
  · simp [docxPageItems, docxImagesItems, docxParagraphs, Except.map]
  · rfl

/-- Counterexample to claim C3 as stated: when the unsized retry of
`add_picture` also raises, the exception propagates and the whole document
rendering fails, so a per-image embed failure can escalate. -/
theorem embed_escalates_cex :
    response_to_docx_bytes true ⟨fun _ => false, fun _ => false⟩
      [⟨0, none, [⟨some (strLit "AAAA")⟩]⟩] = .error .libError := rfl

/-- Claim C3 (amended): for an image whose data is present but cannot be
auto-sized, the renderer retries the embed exactly once without explicit
sizing; when that retry succeeds the failure is silent and the page renders
fully with the unsized picture. -/
theorem embed_retry_unsized (lib : PictureLib) (i : Nat) (b64 : PyStr) (hne : b64 ≠ [])
    (hs : lib.sizedOk (b64decode b64) = false) (hu : lib.unsizedOk (b64decode b64) = true) :
    docxPageItems lib ⟨i, none, [⟨some b64⟩]⟩ =
      .ok [DocxItem.heading (strLit "Page " ++ natToStr (i + 1)) 2,
        DocxItem.picture (b64decode b64) false, DocxItem.pageBreak] := by
  obtain ⟨c, cs, rfl⟩ := List.exists_cons_of_ne_nil hne
  simp [docxPageItems, docxImagesItems, docxParagraphs, hs, hu, Except.map]

/-- Witness for the amended C3 at a concrete library behaviour and image. -/
theorem embed_retry_unsized_witness :
    (strLit "AAAA" ≠ ([] : PyStr) ∧
        PictureLib.sizedOk ⟨fun _ => false, fun _ => true⟩ (b64decode (strLit "AAAA")) = false ∧
        PictureLib.unsizedOk ⟨fun _ => false, fun _ => true⟩ (b64decode (strLit "AAAA")) = true) ∧
      docxPageItems ⟨fun _ => false, fun _ => true⟩ ⟨0, none, [⟨some (strLit "AAAA")⟩]⟩ =
        .ok [DocxItem.heading (strLit "Page " ++ natToStr 1) 2,
          DocxItem.picture (b64decode (strLit "AAAA")) false, DocxItem.pageBreak] :=
  ⟨⟨by decide, rfl, rfl⟩,
    embed_retry_unsized ⟨fun _ => false, fun _ => true⟩ 0 (strLit "AAAA") (by decide) rfl rfl⟩

/-- Claim C6: whenever the rich-document renderer succeeds, it emits exactly
one page break per input page, each page section ends with a page break,
and the last item of a non-empty document is a page break. -/
theorem page_break_per_page (lib : PictureLib) (pages : List PageResult) (items : List DocxItem)
    (h : response_to_docx_bytes true lib pages = .ok items) :
    List.countP isPageBreak items = pages.length ∧
      (pages ≠ [] → items.getLast? = some DocxItem.pageBreak) ∧
      (∀ p its, docxPageItems lib p = .ok its → its.getLast? = some DocxItem.pageBreak) := by
  have h' : docxAllPages lib pages = .ok items := h
  obtain ⟨h1, h2⟩ := docxAllPages_breaks lib pages items h'
  exact ⟨h1, h2, fun p its hp => (docxPageItems_break lib p its hp).2⟩

/-- Witness for C6 on a one-page response. -/
theorem page_break_per_page_witness :
    response_to_docx_bytes true ⟨fun _ => true, fun _ => true⟩ [⟨0, none, []⟩] =
        .ok [DocxItem.heading (strLit "Page 1") 2, DocxItem.pageBreak] ∧
      List.countP isPageBreak [DocxItem.heading (strLit "Page 1") 2, DocxItem.pageBreak] =
        [PageResult.mk 0 none []].length :=
  ⟨rfl, (page_break_per_page ⟨fun _ => true, fun _ => true⟩ [⟨0, none, []⟩]
    [DocxItem.heading (strLit "Page 1") 2, DocxItem.pageBreak] rfl).1⟩

/-- Claim C9: the empty page sequence renders to the empty Markdown string
and to a rich document with zero page sections. -/
theorem empty_sequence_renders_empty :
    response_to_markdown [] = [] ∧
      ∀ lib : PictureLib, response_to_docx_bytes true lib [] = .ok [] :=
  ⟨rfl, fun _ => rfl⟩

/-- Claim C2: when DOCX output is requested and `python-docx` is missing,
the run reports the dedicated missing-dependency message (distinct from
the provider-failure, upload and key messages), the Markdown artifact is
still produced and stored, and nothing escapes; the renderer itself fails
with the actionable `RuntimeError` message rather than rendering. -/
theorem missing_docx_distinct_md_unaffected (lib : PictureLib) (bs : List Nat) (k : Char)
    (ks : PyStr) (pages : List PageResult) :
    conversionFlow lib ⟨some bs, some (k :: ks), true, false, .ok pages⟩ =
        { errors := [docxMissingMsg], exceptionShown := none,
          sessionMd := some (response_to_markdown pages), sessionDocx := none,
          uncaught := none } ∧
      docxMissingMsg ≠ ocrErrMsg ∧ docxMissingMsg ≠ uploadErrMsg ∧ docxMissingMsg ≠ keyErrMsg ∧
      response_to_docx_bytes false lib pages = .error (.runtimeError missingDepMsg) :=
  ⟨rfl, by decide, by decide, by decide, rfl⟩

/-- Claim C4: when the OCR call raises, the run shows the generic OCR error
message with the original exception attached and leaves no partial artifact
in the session state; but instead of ending cleanly it falls through to
`response_to_markdown(resp)` with `resp` unbound, so an uncaught
`NameError` escapes the run. -/
theorem ocr_failure_reports_then_raises (lib : PictureLib) (bs : List Nat) (k : Char)
    (ks : PyStr) (w hd : Bool) (e : OcrFailure) :
    conversionFlow lib ⟨some bs, some (k :: ks), w, hd, .error e⟩ =
      { errors := [ocrErrMsg], exceptionShown := some e, sessionMd := none,
        sessionDocx := none, uncaught := some (.nameError (strLit "resp")) } := rfl

/- ### Lemmas about `splitOnNl`, stripping and heading occurrences -/

theorem splitOnNl_ne_nil : ∀ s : PyStr, splitOnNl s ≠ []
  | [] => by simp [splitOnNl]
  | c :: rest => by
    simp only [splitOnNl]
    by_cases hc : c = '\n'
    · rw [if_pos hc]; simp
    · rw [if_neg hc]
      cases h : splitOnNl rest <;> simp

theorem splitOnNl_nl_cons (s : PyStr) : splitOnNl ('\n' :: s) = [] :: splitOnNl s := by
  simp [splitOnNl]

theorem splitOnNl_cons_ne (c : Char) (s : PyStr) (h : ¬ c = '\n') :
    splitOnNl (c :: s) = (c :: (splitOnNl s).headI) :: (splitOnNl s).tail := by
  obtain ⟨l, ls, hs⟩ := List.exists_cons_of_ne_nil (splitOnNl_ne_nil s)
  simp only [splitOnNl, if_neg h, hs]
  rfl

theorem splitOnNl_append_nl : ∀ x y : PyStr,
    splitOnNl (x ++ '\n' :: y) = splitOnNl x ++ splitOnNl y
  | [], y => by simp [splitOnNl_nl_cons, splitOnNl]
  | c :: x', y => by
    by_cases hc : c = '\n'
    · subst hc
      rw [List.cons_append, splitOnNl_nl_cons, splitOnNl_nl_cons,
        splitOnNl_append_nl x' y]
      rfl
    · rw [List.cons_append, splitOnNl_cons_ne c _ hc, splitOnNl_cons_ne c x' hc,
        splitOnNl_append_nl x' y]
      obtain ⟨l, ls, hs⟩ := List.exists_cons_of_ne_nil (splitOnNl_ne_nil x')
      rw [hs]
      simp

theorem splitOnNl_nonl_append : ∀ d y : PyStr, (∀ c ∈ d, ¬ c = '\n') →
    splitOnNl (d ++ y) = (d ++ (splitOnNl y).headI) :: (splitOnNl y).tail
  | [], y, _ => by
    obtain ⟨l, ls, hs⟩ := List.exists_cons_of_ne_nil (splitOnNl_ne_nil y)
    simp [hs]
  | c :: d', y, h => by
    have hc : ¬ c = '\n' := h c (by simp)
    have hd' : ∀ x ∈ d', ¬ x = '\n' := fun x hx => h x (by simp [hx])
    rw [List.cons_append, splitOnNl_cons_ne c _ hc, splitOnNl_nonl_append d' y hd']
    simp

theorem splitOnNl_nonl (d : PyStr) (h : ∀ c ∈ d, ¬ c = '\n') : splitOnNl d = [d] := by
  have h2 := splitOnNl_nonl_append d [] h
  rw [List.append_nil] at h2
  simpa [splitOnNl] using h2

theorem splitOnNl_concat_ne : ∀ (x : PyStr) (c : Char), ¬ c = '\n' →
    ∃ pre last, splitOnNl x = pre ++ [last] ∧ splitOnNl (x ++ [c]) = pre ++ [last ++ [c]]
  | [], c, hc =>
    ⟨[], [], rfl, by rw [List.nil_append, splitOnNl_cons_ne c [] hc]; rfl⟩
  | a :: x', c, hc => by
    obtain ⟨pre, last, h1, h2⟩ := splitOnNl_concat_ne x' c hc
    by_cases ha : a = '\n'
    · subst ha
      refine ⟨[] :: pre, last, ?_, ?_⟩
      · rw [splitOnNl_nl_cons, h1]; rfl
      · rw [List.cons_append, splitOnNl_nl_cons, h2]; rfl
    · cases pre with
      | nil =>
        refine ⟨[], a :: last, ?_, ?_⟩
        · rw [splitOnNl_cons_ne a x' ha, h1]; rfl
        · rw [List.cons_append, splitOnNl_cons_ne a _ ha, h2]; rfl
      | cons p ps =>
        refine ⟨(a :: p) :: ps, last, ?_, ?_⟩
        · rw [splitOnNl_cons_ne a x' ha, h1]; rfl
        · rw [List.cons_append, splitOnNl_cons_ne a _ ha, h2]; rfl

theorem pyRStrip_append_ws (l : PyStr) (c : Char) (hw : isPyWS c = true) :
    pyRStrip (l ++ [c]) = pyRStrip l := by
  unfold pyRStrip
  rw [List.reverse_append]
  simp [List.dropWhile, hw]

theorem pyRStrip_concat_nonws (l : PyStr) (c : Char) (hc : isPyWS c = false) :
    pyRStrip (l ++ [c]) = l ++ [c] := by
  unfold pyRStrip
  rw [List.reverse_append]
  simp [List.dropWhile, hc]

theorem lineHeading_nil : lineHeading [] = none := rfl

theorem occ_cons_nl (s : PyStr) :
    headingOccurrences ('\n' :: s) = headingOccurrences s := by
  unfold headingOccurrences
  rw [splitOnNl_nl_cons, List.filterMap_cons, lineHeading_nil]

theorem occ_append_nl (x y : PyStr) :
    headingOccurrences (x ++ '\n' :: y) = headingOccurrences x ++ headingOccurrences y := by
  unfold headingOccurrences
  rw [splitOnNl_append_nl, List.filterMap_append]

theorem occ_append_ws (x : PyStr) (c : Char) (hw : isPyWS c = true) :
    headingOccurrences (x ++ [c]) = headingOccurrences x := by
  by_cases hc : c = '\n'
  · subst hc
    rw [show x ++ ['\n'] = x ++ '\n' :: [] from rfl, occ_append_nl,
      show headingOccurrences [] = [] from rfl, List.append_nil]
  · obtain ⟨pre, last, h1, h2⟩ := splitOnNl_concat_ne x c hc
    unfold headingOccurrences
    rw [h1, h2, List.filterMap_append, List.filterMap_append]
    have hlh : lineHeading (last ++ [c]) = lineHeading last := by
      unfold lineHeading
      rw [pyRStrip_append_ws last c hw]
    rw [List.filterMap_cons, List.filterMap_cons, hlh]

theorem occ_dropWhile_rev (r : PyStr) :
    headingOccurrences ((r.dropWhile isPyWS).reverse) = headingOccurrences r.reverse := by
  induction r with
  | nil => rfl
  | cons c r' ih =>
    by_cases hw : isPyWS c = true
    · rw [List.reverse_cons, occ_append_ws r'.reverse c hw, ← ih]
      congr 1
      simp [List.dropWhile, hw]
    · simp [List.dropWhile, hw]

theorem occ_pyRStrip (s : PyStr) :
    headingOccurrences (pyRStrip s) = headingOccurrences s := by
  have h := occ_dropWhile_rev s.reverse
  rw [List.reverse_reverse] at h
  exact h

/- ### Lemmas about decimal formatting and heading parsing -/

theorem digitChar_facts : ∀ d, d < 10 →
    (digitChar d).toNat = 48 + d ∧ isDigitCh (digitChar d) = true ∧
      isPyWS (digitChar d) = false ∧ ¬ digitChar d = '\n' := by decide

theorem digitsVal_concat (t : PyStr) (c : Char) :
    digitsVal (t ++ [c]) = digitsVal t * 10 + (c.toNat - 48) := by
  unfold digitsVal
  rw [List.foldl_append]
  rfl

theorem natToStrF_spec : ∀ f n : Nat, n < f →
    (natToStrF f n ≠ [] ∧ digitsVal (natToStrF f n) = n) ∧
      (∀ c ∈ natToStrF f n, ∃ d, d < 10 ∧ c = digitChar d) ∧
      ∃ t d, d < 10 ∧ natToStrF f n = t ++ [digitChar d]
  | 0, n, h => absurd h (Nat.not_lt_zero n)
  | f + 1, n, h => by
    by_cases h10 : n < 10
    · rw [show natToStrF (f + 1) n = [digitChar n] from by simp [natToStrF, h10]]
      refine ⟨⟨by simp, ?_⟩, ?_, [], n, h10, by simp⟩
      · have h1 := (digitChar_facts n h10).1
        simp [digitsVal]
        omega
      · intro c hc
        simp at hc
        exact ⟨n, h10, hc⟩
    · have hdiv : n / 10 < f := by omega
      obtain ⟨⟨hne, hval⟩, hdigs, hconcat⟩ := natToStrF_spec f (n / 10) hdiv
      rw [show natToStrF (f + 1) n = natToStrF f (n / 10) ++ [digitChar (n % 10)] from by
        simp [natToStrF, h10]]
      have hm10 : n % 10 < 10 := Nat.mod_lt _ (by omega)
      refine ⟨⟨by simp, ?_⟩, ?_, natToStrF f (n / 10), n % 10, hm10, rfl⟩
      · rw [digitsVal_concat, hval, (digitChar_facts _ hm10).1]
        omega
      · intro c hc
        rw [List.mem_append] at hc
        cases hc with
        | inl h1 => exact hdigs c h1
        | inr h2 =>
          simp at h2
          exact ⟨n % 10, hm10, h2⟩

theorem natToStr_spec (n : Nat) :
    (natToStr n ≠ [] ∧ digitsVal (natToStr n) = n) ∧
      (∀ c ∈ natToStr n, ∃ d, d < 10 ∧ c = digitChar d) ∧
      ∃ t d, d < 10 ∧ natToStr n = t ++ [digitChar d] :=
  natToStrF_spec (n + 1) n (Nat.lt_succ_self n)

theorem beginsWith_append_self : ∀ p s : PyStr, beginsWith p (p ++ s) = true
  | [], _ => rfl
  | a :: p', s => by simp [beginsWith, beginsWith_append_self p' s]

theorem beginsWith_iff : ∀ p l : PyStr, beginsWith p l = true ↔ p <+: l
  | [], l => by simp [beginsWith]
  | a :: p', [] => by simp [beginsWith]
  | a :: p', b :: l' => by
    simp [beginsWith, beginsWith_iff p' l', List.cons_prefix_cons]

theorem parseHeading_digits (ds : PyStr) (hne : ds ≠ []) (hdig : ∀ c ∈ ds, isDigitCh c = true) :
    parseHeading (hdr9 ++ ds) = some (digitsVal ds) := by
  unfold parseHeading
  rw [beginsWith_append_self]
  have hdrop : (hdr9 ++ ds).drop 9 = ds := by
    rw [show (9 : Nat) = hdr9.length from rfl, List.drop_left]
  rw [hdrop]
  have hemp : ds.isEmpty = false := by
    cases ds with
    | nil => exact absurd rfl hne
    | cons a t => rfl
  have hall : ds.all isDigitCh = true := List.all_eq_true.mpr hdig
  rw [hemp, hall]
  rfl

theorem pyRStrip_isPre (l : PyStr) : pyRStrip l <+: l := by
  unfold pyRStrip
  conv_rhs => rw [← List.reverse_reverse l]
  rw [List.reverse_prefix]
  exact List.dropWhile_suffix _

theorem lineHeading_none_of_clean (l : PyStr) (h : beginsWith hdr9 l = false) :
    lineHeading l = none := by
  unfold lineHeading parseHeading
  have hb : beginsWith hdr9 (pyRStrip l) = false := by
    by_contra hcon
    have hb' : beginsWith hdr9 (pyRStrip l) = true := by
      revert hcon
      cases beginsWith hdr9 (pyRStrip l) <;> simp
    rw [beginsWith_iff] at hb'
    have htr := hb'.trans (pyRStrip_isPre l)
    rw [← beginsWith_iff] at htr
    rw [htr] at h
    cases h
  rw [hb]
  rfl

theorem occ_clean_text (t : PyStr) (h : ∀ l ∈ splitOnNl t, beginsWith hdr9 l = false) :
    headingOccurrences t = [] := by
  unfold headingOccurrences
  rw [List.filterMap_eq_nil_iff]
  intro l hl
  exact lineHeading_none_of_clean l (h l hl)

theorem occ_pageHeader (i : Nat) : headingOccurrences (pageHeader i) = [i + 1] := by
  obtain ⟨⟨hne, hval⟩, hdigs, t, d, hd10, hconcat⟩ := natToStr_spec (i + 1)
  have hstruct : pageHeader i =
      '\n' :: '\n' ::
        (['-', '-', '-'] ++ '\n' :: ('\n' :: (hdr9 ++ (natToStr (i + 1) ++ ['\n', '\n'])))) := by
    unfold pageHeader
    rw [List.append_assoc]
    rfl
  rw [hstruct, occ_cons_nl, occ_cons_nl, occ_append_nl, occ_cons_nl]
  have hsplit2 : hdr9 ++ (natToStr (i + 1) ++ ['\n', '\n']) =
      (hdr9 ++ natToStr (i + 1)) ++ '\n' :: ['\n'] := by
    rw [← List.append_assoc]
  rw [hsplit2, occ_append_nl]
  rw [show headingOccurrences ['-', '-', '-'] = [] from rfl,
    show headingOccurrences ['\n'] = [] from rfl]
  rw [List.nil_append, List.append_nil]
  have hnonl : ∀ c ∈ hdr9 ++ natToStr (i + 1), ¬ c = '\n' := by
    intro c hc
    rw [List.mem_append] at hc
    cases hc with
    | inl h =>
      have hh : ∀ x ∈ hdr9, ¬ x = '\n' := by decide
      exact hh c h
    | inr h =>
      obtain ⟨d', hd', rfl⟩ := hdigs c h
      exact (digitChar_facts d' hd').2.2.2
  unfold headingOccurrences
  rw [splitOnNl_nonl _ hnonl]
  have hrs : pyRStrip (hdr9 ++ natToStr (i + 1)) = hdr9 ++ natToStr (i + 1) := by
    rw [hconcat, ← List.append_assoc]
    exact pyRStrip_concat_nonws _ _ (digitChar_facts d hd10).2.2.1
  have hlh : lineHeading (hdr9 ++ natToStr (i + 1)) = some (i + 1) := by
    unfold lineHeading
    rw [hrs]
    have hdigall : ∀ c ∈ natToStr (i + 1), isDigitCh c = true := by
      intro c hc
      obtain ⟨d', hd', rfl⟩ := hdigs c hc
      exact (digitChar_facts d' hd').2.1
    rw [parseHeading_digits _ hne hdigall, hval]
  rw [List.filterMap_cons, hlh]
  rfl

theorem occ_pyJoin : ∀ L : List PyStr,
    headingOccurrences (pyJoin ['\n'] L) = (L.map headingOccurrences).flatten
  | [] => rfl
  | [x] => by simp [pyJoin]
  | x :: y :: L' => by
    have hj : pyJoin ['\n'] (x :: y :: L') = x ++ '\n' :: pyJoin ['\n'] (y :: L') := by
      simp [pyJoin]
    rw [hj, occ_append_nl, occ_pyJoin (y :: L')]
    simp

theorem occ_pageParts_flat (p : PageResult) (himg : p.images = [])
    (ht : ∀ t ∈ mdTextPart p, ∀ l ∈ splitOnNl t, beginsWith hdr9 l = false) :
    ((pageParts p).map headingOccurrences).flatten = [p.index + 1] := by
  rcases p with ⟨i, m, imgs⟩
  simp only at himg
  subst himg
  cases m with
  | none => simp [pageParts, mdTextPart, occ_pageHeader]
  | some t =>
    by_cases he : t.isEmpty
    · simp [pageParts, mdTextPart, he, occ_pageHeader]
    · have hmem : t ∈ mdTextPart ⟨i, some t, []⟩ := by simp [mdTextPart, he]
      have hocc : headingOccurrences t = [] := occ_clean_text t (ht t hmem)
      simp [pageParts, mdTextPart, he, occ_pageHeader, hocc]

theorem flatten_singletons {α β : Type} (f : α → β) :
    ∀ l : List α, (l.map fun a => [f a]).flatten = l.map f
  | [] => rfl
  | a :: t => by simp [flatten_singletons f t]

/-- Counterexample to claim C1 as stated: a single page (index 0, no
images) whose text itself contains the line `### Page 1` makes the rendered
Markdown contain the pattern `Page 1` twice, not exactly once. -/
theorem markdown_page_headings_cex :
    ([⟨0, some (strLit "### Page 1"), []⟩] : List PageResult).map PageResult.index =
        List.range 1 ∧
      (∀ p ∈ ([⟨0, some (strLit "### Page 1"), []⟩] : List PageResult), p.images = []) ∧
      headingOccurrences (response_to_markdown [⟨0, some (strLit "### Page 1"), []⟩]) = [1, 1] ∧
      ([1, 1] : List Nat) ≠ (List.range 1).map (· + 1) := by
  refine ⟨rfl, by decide, rfl, by decide⟩

theorem occ_lstrip_header (v : PyStr) (L : List PyStr) :
    headingOccurrences (pyLStrip (pyJoin ['\n'] (('\n' :: '\n' :: '-' :: v) :: L))) =
      headingOccurrences (pyJoin ['\n'] (('\n' :: '\n' :: '-' :: v) :: L)) := by
  cases L with
  | nil =>
    show headingOccurrences (pyLStrip ('\n' :: '\n' :: '-' :: v)) =
      headingOccurrences ('\n' :: '\n' :: '-' :: v)
    rw [show pyLStrip ('\n' :: '\n' :: '-' :: v) = '-' :: v from rfl]
    rw [occ_cons_nl, occ_cons_nl]
  | cons y ys =>
    have hj : pyJoin ['\n'] (('\n' :: '\n' :: '-' :: v) :: y :: ys) =
        '\n' :: '\n' :: '-' :: (v ++ '\n' :: pyJoin ['\n'] (y :: ys)) := by
      simp [pyJoin]
    rw [hj]
    rw [show pyLStrip ('\n' :: '\n' :: '-' :: (v ++ '\n' :: pyJoin ['\n'] (y :: ys))) =
      '-' :: (v ++ '\n' :: pyJoin ['\n'] (y :: ys)) from rfl]
    rw [occ_cons_nl, occ_cons_nl]

/-- Claim C1 (amended): for pages carrying indices `0..N-1` in input order,
with no images and no text line beginning with the stem `### Page `, the
Markdown output contains exactly the heading occurrences
`Page 1 .. Page N` in ascending order, one per page, even for pages with
no text. -/
theorem markdown_page_headings (pages : List PageResult)
    (hidx : pages.map PageResult.index = List.range pages.length)
    (himg : ∀ p ∈ pages, p.images = [])
    (ht : ∀ p ∈ pages, ∀ t ∈ mdTextPart p, ∀ l ∈ splitOnNl t, beginsWith hdr9 l = false) :
    headingOccurrences (response_to_markdown pages) =
      (List.range pages.length).map (· + 1) := by
  unfold response_to_markdown pyStrip
  rw [occ_pyRStrip]
  have hJ : headingOccurrences (pyJoin ['\n'] (List.flatten (pages.map pageParts))) =
      (List.range pages.length).map (· + 1) := by
    rw [occ_pyJoin, List.map_flatten, List.flatten_flatten, List.map_map, List.map_map]
    have hcong : pages.map ((List.flatten ∘ List.map headingOccurrences) ∘ pageParts) =
        pages.map (fun p => [p.index + 1]) :=
      List.map_congr_left (fun p hp => occ_pageParts_flat p (himg p hp) (ht p hp))
    rw [hcong]
    have hflat : ∀ l : List PageResult,
        (l.map fun p => [p.index + 1]).flatten = l.map fun p => p.index + 1 := by
      intro l
      induction l with
      | nil => rfl
      | cons a t iht => simp [iht]
    rw [hflat]
    have hmm2 : pages.map (fun p => p.index + 1) =
        (pages.map PageResult.index).map (· + 1) := by
      rw [List.map_map]
      rfl
    rw [hmm2, hidx]
  cases pages with
  | nil => rfl
  | cons p rest =>
    obtain ⟨u, hu⟩ : ∃ u, pageHeader p.index = '\n' :: '\n' :: '-' :: u :=
      ⟨(strLit "--\n\n### Page " ++ natToStr (p.index + 1)) ++ strLit "\n\n", rfl⟩
    have hflatcons : List.flatten ((p :: rest).map pageParts) =
        ('\n' :: '\n' :: '-' :: u) ::
          ((mdTextPart p ++
            (if p.images.isEmpty then []
             else imgHeadingStr :: imagesParts p.index p.images 1)) ++
              List.flatten (rest.map pageParts)) := by
      rw [List.map_cons, List.flatten_cons]
      simp only [pageParts]
      rw [hu]
      rfl
    rw [hflatcons, occ_lstrip_header, ← hflatcons]
    exact hJ

/-- Witness for the amended C1 on two concrete pages. -/
theorem markdown_page_headings_witness :
    (([⟨0, some (strLit "hello"), []⟩, ⟨1, none, []⟩] : List PageResult).map PageResult.index =
        List.range ([⟨0, some (strLit "hello"), []⟩, ⟨1, none, []⟩] : List PageResult).length ∧
      (∀ p ∈ ([⟨0, some (strLit "hello"), []⟩, ⟨1, none, []⟩] : List PageResult),
        p.images = []) ∧
      (∀ p ∈ ([⟨0, some (strLit "hello"), []⟩, ⟨1, none, []⟩] : List PageResult),
        ∀ t ∈ mdTextPart p, ∀ l ∈ splitOnNl t, beginsWith hdr9 l = false)) ∧
      headingOccurrences
          (response_to_markdown [⟨0, some (strLit "hello"), []⟩, ⟨1, none, []⟩]) =
        (List.range
          ([⟨0, some (strLit "hello"), []⟩, ⟨1, none, []⟩] : List PageResult).length).map
          (· + 1) :=
  ⟨⟨by decide, by decide, by decide⟩,
    markdown_page_headings _ (by decide) (by decide) (by decide)⟩
